import Mathlib

/-!
Verification of the name-resolution engine of `src/communication/scrollsguide.py`
(the scrollsguide API wrapper): lazy cache population, exact-match
short-circuiting, fuzzy scoring, tie-grouping and ambiguity classification.

The Python code is shallowly embedded below.  Machine floats of the source are
modelled as rationals; the external fuzzy scorer `fuzz.partial_ratio` (a
third-party library, not part of this repository) is an opaque parameter
`pr : String → String → ℚ`; Python dicts (insertion-ordered, last-write-wins)
are association lists with an order-preserving insert; exceptions become an
explicit result type.
-/

set_option autoImplicit false

namespace Scrollsguide

/-- An opaque JSON field value, as stored by `Scroll.__init__`.  The resolver
never inspects any field except the name, so the payload shape is minimal:
strings, integers, null, and arrays (only needed for the `[]` defaults of
`passiverules` / `abilities`). -/
inductive JVal where
  | s (v : String)
  | i (v : Int)
  | null
  | arr0
deriving DecidableEq, Repr, Inhabited

/-- A JSON object: field-name / value pairs (`json_data : dict` in the source). -/
abbrev JsonObj := List (String × JVal)

/-- `json_data[k]` as a total lookup: `some v` when the field is present,
`none` when Python would raise `KeyError`. -/
def jget (j : JsonObj) (k : String) : Option JVal :=
  (j.find? (fun p => p.1 = k)).map (fun p => p.2)

/-- The `Scroll` record, mirroring the attributes `Scroll.__init__`
(lines 29-46) assigns.  Every field is stored as the opaque JSON value the
constructor read; no type checking happens there, exactly as in Python. -/
structure Scroll where
  _id : JVal
  _name : JVal
  _description : JVal
  _kind : JVal
  _types : JVal
  _growth_cost : JVal
  _order_cost : JVal
  _energy_cost : JVal
  _decay_cost : JVal
  _attack : JVal
  _countdown : JVal
  _health : JVal
  _flavor : JVal
  _rarity : JVal
  _set : JVal
  _passive_rules : JVal
  _abilities : JVal
deriving DecidableEq, Repr, Inhabited

/-- `Scroll.__init__` (lines 29-46): reads fifteen mandatory fields with
`json_data[...]` (a missing one raises `KeyError`, modelled as `none`) and two
optional fields with `json_data.get(..., [])`.  Fields of the JSON object not
named here are dropped. -/
def mkScroll (j : JsonObj) : Option Scroll := do
  let idv ← jget j "id"
  let namev ← jget j "name"
  let descriptionv ← jget j "description"
  let kindv ← jget j "kind"
  let typesv ← jget j "types"
  let costgrowthv ← jget j "costgrowth"
  let costorderv ← jget j "costorder"
  let costenergyv ← jget j "costenergy"
  let costdecayv ← jget j "costdecay"
  let apv ← jget j "ap"
  let acv ← jget j "ac"
  let hpv ← jget j "hp"
  let flavorv ← jget j "flavor"
  let rarityv ← jget j "rarity"
  let setv ← jget j "set"
  let passiverulesv := (jget j "passiverules").getD .arr0
  let abilitiesv := (jget j "abilities").getD .arr0
  pure ⟨idv, namev, descriptionv, kindv, typesv, costgrowthv, costorderv,
        costenergyv, costdecayv, apv, acv, hpv, flavorv, rarityv, setv,
        passiverulesv, abilitiesv⟩

/-- The `name` property (lines 48-50). -/
def Scroll.name (s : Scroll) : JVal := s._name

/-- Python's `str.lower()`, character by character (the catalog names are
ASCII, where this coincides with Python's Unicode lowercasing). -/
def strLower (s : String) : String := ⟨s.data.map Char.toLower⟩

/-- `scroll.name.lower()`: succeeds with the lowercased key only when the name
is a string; on any other payload Python raises `AttributeError`. -/
def lowerKey : JVal → Option String
  | .s v => some (strLower v)
  | _ => none

/-! ### Python dict model

`cls._scrolls_db` is a Python dict keyed by lowercased names.  We model it as
an association list without duplicate keys: membership, indexing and
insertion-ordered iteration over `keys()` map to `find?`, and assignment to an
update that keeps the first-insertion position (Python dict semantics). -/

/-- The catalog cache: lowercased name → record, in insertion order. -/
abbrev Db := List (String × Scroll)

/-- `db[k]` / `k in db.keys()`: first (and, for dicts, only) binding of `k`. -/
def dictLookup (db : Db) (k : String) : Option Scroll :=
  (db.find? (fun p => p.1 = k)).map (fun p => p.2)

/-- `db[k]` on a key known to be present (total with a dummy default, only ever
used behind a membership check, as in the source). -/
def dictGet (db : Db) (k : String) : Scroll :=
  (dictLookup db k).getD default

/-- `db.keys()` in insertion order. -/
def dictKeys (db : Db) : List String :=
  db.map (fun p => p.1)

/-- `db[k] = v`: overwrite in place when `k` is already a key (keeping its
position, as Python dicts do), otherwise append. -/
def dictInsert (db : Db) (k : String) (v : Scroll) : Db :=
  if db.any (fun p => p.1 = k) then
    db.map (fun p => if p.1 = k then (k, v) else p)
  else
    db ++ [(k, v)]

/-! ### Rounding

Line 134 applies Python's `round(score, 2)`, which rounds half to even. -/

/-- Python `round(x)`: round half to even, on rationals. -/
def roundHalfEven (q : ℚ) : ℤ :=
  let f := ⌊q⌋
  let r := q - (f : ℚ)
  if r < 1/2 then f
  else if 1/2 < r then f + 1
  else if f % 2 = 0 then f else f + 1

/-- Python `round(x, 2)`. -/
def round2 (q : ℚ) : ℚ :=
  (roundHalfEven (q * 100) : ℚ) / 100

/-! ### The resolver (`Scroll.get_by_name`, lines 120-145)

The lazy-initialization step (lines 124-126) is modelled separately below
(`lazy_init`); `get_by_name` here is the resolution logic over an already
populated cache (lines 123 and 127-145), parametric in the external scorer
`pr` standing for `fuzz.partial_ratio`. -/

/-- Outcome of `get_by_name`: the returned scroll, or one of the exceptions it
can raise.  `valueError` is Python's `ValueError` escaping from
`max(name_scores.values())` when `name_scores` is empty (line 138). -/
inductive LookupResult where
  | found (r : Scroll)
  | multipleScrollsFound (scrolls : List JVal) (search_term : String)
  | scrollNotFound
  | valueError
deriving DecidableEq, Repr

/-- Lines 131-136: for every cached name compute `round(pr(query, name), 2)`
and keep the pairs with `score >= threshold` (the threshold is compared
literally, with no change of scale), in `keys()` iteration order. -/
def name_scores (db : Db) (pr : String → String → ℚ) (q : String)
    (threshold : ℚ) : List (String × ℚ) :=
  (dictKeys db).filterMap (fun scroll_name =>
    let score := round2 (pr q scroll_name)
    if threshold ≤ score then some (scroll_name, score) else none)

/-- Line 138, `max(name_scores.values())`: `none` when the sequence is empty
(Python raises `ValueError` there). -/
def maxOfValues : List (String × ℚ) → Option ℚ
  | [] => none
  | p :: ps => some (ps.foldl (fun m x => max m x.2) p.2)

/-- Line 139: all names whose score equals the maximum (literal equality). -/
def closest_items (ns : List (String × ℚ)) (max_score : ℚ) : List String :=
  ns.filterMap (fun p => if p.2 = max_score then some p.1 else none)

/-- `Scroll.get_by_name` over a populated cache (lines 123, 127-145):
lowercase the query, exact-match short-circuit, otherwise fuzzy scoring,
max-of-scores (which raises on an empty candidate set), tie-grouping, and the
single / multiple / none classification.  `MultipleScrollsFound` is raised
with the scroll objects' display names (its `__init__`, lines 15-17, keeps
`[scroll.name for scroll in scrolls]`) and the lowercased query. -/
def get_by_name (db : Db) (pr : String → String → ℚ) (query : String)
    (threshold : ℚ := 7/10) : LookupResult :=
  let q := strLower query
  match dictLookup db q with
  | some r => .found r
  | none =>
    let ns := name_scores db pr q threshold
    match maxOfValues ns with
    | none => .valueError
    | some max_score =>
      match closest_items ns max_score with
      | [n] => .found (dictGet db n)
      | [] => .scrollNotFound
      | items => .multipleScrollsFound (items.map (fun n => (dictGet db n).name)) q

/-! ### `MultipleScrollsFound.__str__` (lines 19-22) -/

/-- The exception message: with more than 5 tied names a fixed "too many"
text (the names are not enumerated), otherwise all names joined with `", "`.
Non-string display names are rendered via `reprStr`, standing for Python's
string interpolation of arbitrary objects; scroll names are strings in
practice.  The stray `z` after the closing quote is in the source. -/
def msfToString (scrolls : List JVal) (search_term : String) : String :=
  let shown := scrolls.map (fun v => match v with | .s nm => nm | v => reprStr v)
  if scrolls.length > 5 then
    "Too many scrolls matches your query \x27" ++ search_term ++ "\x27"
  else
    "Multiple scrolls match \x27" ++ search_term ++ "\x27z: " ++
      String.intercalate ", " shown

/-! ### Cache population (`Scroll.__load_scrolls`, lines 108-118)

The fetch (`s.get`, `resp.text`) and `json.loads` all happen BEFORE the
assignment `cls._scrolls_db = {}` on line 115; their combined outcome is the
parameter `fetchParse : Option (List JsonObj)` (`none` = the request or the
parse raised).  After a successful parse the code assigns the empty dict and
then inserts record by record; a record whose construction or whose
`.name.lower()` raises leaves the dict partially filled. -/

/-- The insertion loop of lines 115-118 starting from a given dict: returns
the dict reached and whether an exception escaped (stopping the loop). -/
def buildInserts : Db → List JsonObj → Db × Bool
  | db, [] => (db, false)
  | db, j :: js =>
    match mkScroll j with
    | none => (db, true)
    | some sc =>
      match lowerKey sc.name with
      | none => (db, true)
      | some k => buildInserts (dictInsert db k sc) js

/-- `Scroll.__load_scrolls`: on a fetch/parse failure the exception propagates
before line 115 runs, so the cache state is unchanged; on success the cache is
replaced by the freshly built dict (possibly partial if a record raised).
The `Bool` is whether an exception escaped. -/
def load_scrolls (fetchParse : Option (List JsonObj)) (st : Option Db) :
    Option Db × Bool :=
  match fetchParse with
  | none => (st, true)
  | some data =>
    let (db, err) := buildInserts [] data
    (some db, err)

/-- Lines 124-126 of `get_by_name`: fetch only when the cache is `None`. -/
def lazy_init (fetchParse : Option (List JsonObj)) (st : Option Db) :
    Option Db × Bool :=
  match st with
  | some _ => (st, false)
  | none => load_scrolls fetchParse st

/-- The record occurring last in the fetched list order whose lowercased name
is `k` (among records that construct successfully). -/
def lastMatch (js : List JsonObj) (k : String) : Option Scroll :=
  ((js.filterMap mkScroll).filter (fun sc => lowerKey sc.name = some k)).getLast?

/-- A fetched record that loads without an exception: construction succeeds
and the name is a string. -/
def validRecord (j : JsonObj) : Bool :=
  match mkScroll j with
  | none => false
  | some sc => (lowerKey sc.name).isSome

/-! ### Concurrency model for the lazy initialization (lines 124-126)

`get_by_name` is an `async` coroutine sharing `cls._scrolls_db` with all
concurrent callers, with no lock.  Under asyncio's cooperative scheduling the
atomic units are the code stretches between `await` points:

* the check `if cls._scrolls_db is None` (line 124) and entering
  `__load_scrolls` is one synchronous step — a caller seeing a populated
  cache proceeds to resolution, a caller seeing `None` starts its own fetch;
* the fetch suspends (`await s.get`, `await resp.text()`); once the response
  text is available, building and publishing the whole dict (lines 114-118)
  is one synchronous block with no `await`, so the dict goes from its old
  value to a fully built one in one atomic step from the other coroutines'
  viewpoint.

Each caller `i` is a little program with a program counter; `dbs.get? i` is
the full cache caller `i`'s fetch would build.  A schedule is a list of
caller indices; `fetches` counts how many fetches were started.  When a
caller finishes its initialization phase it proceeds — still inside the same
synchronous block, lines 127-145 contain no `await` — to resolve against the
cache dict it is holding; `obs` records, per caller, that observed snapshot
(the caller's own build after a fetch, or the shared value it saw at the
line-124 check).  The call's return value is `get_by_name` of that snapshot:
resolution is a pure function of it. -/

inductive CallerPC where
  | start
  | fetching
  | done
deriving DecidableEq, Repr

structure ConcSys (α : Type) where
  shared : Option α
  pcs : List CallerPC
  obs : List (Option α)
  fetches : Nat
deriving DecidableEq, Repr

/-- One atomic step of caller `i`. -/
def stepCaller {α : Type} (dbs : List α) (st : ConcSys α) (i : Nat) : ConcSys α :=
  match st.pcs.get? i with
  | some .start =>
    if st.shared.isNone then
      { st with pcs := st.pcs.set i .fetching, fetches := st.fetches + 1 }
    else
      { st with pcs := st.pcs.set i .done, obs := st.obs.set i st.shared }
  | some .fetching =>
    match dbs.get? i with
    | some db =>
      { shared := some db, pcs := st.pcs.set i .done,
        obs := st.obs.set i (some db), fetches := st.fetches }
    | none => st
  | _ => st

/-- Run a schedule of caller steps. -/
def runSched {α : Type} (dbs : List α) (sched : List Nat) (st : ConcSys α) :
    ConcSys α :=
  sched.foldl (stepCaller dbs) st

/-- All callers at their first step, cache uninitialized, nothing observed. -/
def initSys {α : Type} (dbs : List α) : ConcSys α :=
  ⟨none, dbs.map (fun _ => .start), dbs.map (fun _ => none), 0⟩

/-! ### Sample data for concrete instantiations -/

/-- The fifteen fields `Scroll.__init__` reads with `json_data[...]`. -/
def mandatoryFields : List String :=
  ["id", "name", "description", "kind", "types", "costgrowth", "costorder",
   "costenergy", "costdecay", "ap", "ac", "hp", "flavor", "rarity", "set"]

/-- All seventeen field names `Scroll.__init__` touches. -/
def relevantFields : List String :=
  mandatoryFields ++ ["passiverules", "abilities"]

/-- A record with the given id and display name and null payload elsewhere. -/
def mkRec (idv : Int) (nm : String) : Scroll :=
  ⟨.i idv, .s nm, .null, .null, .null, .null, .null, .null, .null, .null,
   .null, .null, .null, .null, .null, .arr0, .arr0⟩

/-- A JSON record carrying exactly the fifteen mandatory fields. -/
def jrec (idv : Int) (nm : String) : JsonObj :=
  [("id", .i idv), ("name", .s nm), ("description", .null), ("kind", .null),
   ("types", .null), ("costgrowth", .null), ("costorder", .null),
   ("costenergy", .null), ("costdecay", .null), ("ap", .null), ("ac", .null),
   ("hp", .null), ("flavor", .null), ("rarity", .null), ("set", .null)]

/-- A record missing exactly one mandatory field (`flavor`). -/
def jrecNoFlavor : JsonObj :=
  [("id", .i 7), ("name", .s "Foo"), ("description", .null), ("kind", .null),
   ("types", .null), ("costgrowth", .null), ("costorder", .null),
   ("costenergy", .null), ("costdecay", .null), ("ap", .null), ("ac", .null),
   ("hp", .null), ("rarity", .null), ("set", .null)]

/-- A record whose fifteen mandatory fields are present but whose name is an
integer, not a string. -/
def jrecIntName : JsonObj :=
  [("id", .i 7), ("name", .i 5), ("description", .null), ("kind", .null),
   ("types", .null), ("costgrowth", .null), ("costorder", .null),
   ("costenergy", .null), ("costdecay", .null), ("ap", .null), ("ac", .null),
   ("hp", .null), ("flavor", .null), ("rarity", .null), ("set", .null)]

/-- The scroll object `Scroll.__init__` builds from `jrecIntName`. -/
def scIntName : Scroll :=
  ⟨.i 7, .i 5, .null, .null, .null, .null, .null, .null, .null, .null,
   .null, .null, .null, .null, .null, .arr0, .arr0⟩

/-! ### Helper lemmas -/

theorem none_bind_eq {A B : Type} (k : A → Option B) :
    ((none : Option A) >>= k) = none := rfl

theorem bind_fun_none {A B : Type} (x : Option A) :
    (x >>= fun _ => (none : Option B)) = none := by
  cases x <;> rfl

theorem foldl_max_spec (ps : List (String × ℚ)) (a : ℚ) :
    a ≤ ps.foldl (fun m x => max m x.2) a
    ∧ (∀ p ∈ ps, p.2 ≤ ps.foldl (fun m x => max m x.2) a)
    ∧ (ps.foldl (fun m x => max m x.2) a = a
        ∨ ∃ p ∈ ps, ps.foldl (fun m x => max m x.2) a = p.2) := by
  induction ps generalizing a with
  | nil => simp
  | cons b bs ih =>
    simp only [List.foldl_cons]
    obtain ⟨h1, h2, h3⟩ := ih (max a b.2)
    refine ⟨le_trans (le_max_left _ _) h1, ?_, ?_⟩
    · intro p hp
      rcases List.mem_cons.mp hp with rfl | hp
      · exact le_trans (le_max_right _ _) h1
      · exact h2 p hp
    · rcases h3 with h | ⟨p, hp, hpe⟩
      · by_cases hab : b.2 ≤ a
        · exact Or.inl (by rw [h, max_eq_left hab])
        · exact Or.inr ⟨b, List.mem_cons_self b bs,
            by rw [h, max_eq_right (le_of_not_le hab)]⟩
      · exact Or.inr ⟨p, List.mem_cons_of_mem b hp, hpe⟩

/-- `max(name_scores.values())` really computes the maximum: it bounds every
score and is attained by one of them. -/
theorem maxOfValues_spec (ns : List (String × ℚ)) (m : ℚ)
    (h : maxOfValues ns = some m) :
    (∀ p ∈ ns, p.2 ≤ m) ∧ ∃ p ∈ ns, p.2 = m := by
  match ns with
  | [] => simp [maxOfValues] at h
  | p :: ps =>
    simp only [maxOfValues, Option.some.injEq] at h
    obtain ⟨h1, h2, h3⟩ := foldl_max_spec ps p.2
    subst h
    refine ⟨?_, ?_⟩
    · intro x hx
      rcases List.mem_cons.mp hx with rfl | hx
      · exact h1
      · exact h2 x hx
    · rcases h3 with h | ⟨q, hq, hqe⟩
      · exact ⟨p, List.mem_cons_self p ps, h.symm⟩
      · exact ⟨q, List.mem_cons_of_mem p hq, hqe.symm⟩

/-- Line 139 collects a name exactly when it was kept with a score literally
equal to the maximum. -/
theorem mem_closest_items (ns : List (String × ℚ)) (m : ℚ) (n : String) :
    n ∈ closest_items ns m ↔ (n, m) ∈ ns := by
  simp only [closest_items, List.mem_filterMap]
  constructor
  · rintro ⟨⟨pn, ps⟩, hp, he⟩
    split at he
    · next h => cases he; exact h ▸ hp
    · cases he
  · intro h
    exact ⟨(n, m), h, by simp⟩

theorem map_unchanged_of_no_key {db : Db} {k : String} {v : Scroll}
    (h : ∀ p ∈ db, ¬ p.1 = k) :
    db.map (fun p => if p.1 = k then (k, v) else p) = db := by
  induction db with
  | nil => rfl
  | cons a l ih =>
    simp only [List.map_cons]
    rw [if_neg (h a (List.mem_cons_self a l)),
      ih (fun p hp => h p (List.mem_cons_of_mem a hp))]

theorem find?_mapInsert (db : Db) (k : String) (v : Scroll) (k' : String)
    (hany : db.any (fun p => p.1 = k) = true) :
    (db.map (fun p => if p.1 = k then (k, v) else p)).find?
        (fun p => p.1 = k')
      = if k' = k then some (k, v) else db.find? (fun p => p.1 = k') := by
  induction db with
  | nil => simp at hany
  | cons a l ih =>
    by_cases hak : a.1 = k
    · by_cases hk' : k' = k
      · subst hk'
        simp [List.map_cons, if_pos hak, List.find?_cons]
      · have hmapl :
            (l.map (fun p => if p.1 = k then (k, v) else p)).find?
                (fun p => p.1 = k')
              = l.find? (fun p => p.1 = k') := by
          by_cases hlany : l.any (fun p => p.1 = k) = true
          · rw [ih hlany, if_neg hk']
          · rw [map_unchanged_of_no_key (fun p hp h =>
              hlany (List.any_eq_true.mpr ⟨p, hp, by simp [h]⟩))]
        have hahead : ¬ (a.1 = k') := fun h => hk' (by rw [← h, hak])
        have hkk' : ¬ (k = k') := fun h => hk' h.symm
        simp only [List.map_cons, if_pos hak, List.find?_cons, if_neg hk']
        simp [hkk', hahead, hmapl]
    · have hlany : l.any (fun p => p.1 = k) = true := by
        rcases List.any_eq_true.mp hany with ⟨p, hp, hpk⟩
        rcases List.mem_cons.mp hp with rfl | hpl
        · exact absurd (of_decide_eq_true hpk) hak
        · exact List.any_eq_true.mpr ⟨p, hpl, hpk⟩
      by_cases hak' : a.1 = k'
      · have hk' : ¬ (k' = k) := fun h => hak (by rw [hak', h])
        simp [List.map_cons, if_neg hak, List.find?_cons, hak', if_neg hk']
      · simp only [List.map_cons, if_neg hak, List.find?_cons, hak',
          decide_False, ite_false]
        exact ih hlany

/-- Python dict assignment: `db[k] = v` makes `db[k']` return `v` at `k` and
leaves every other key unchanged. -/
theorem dictLookup_dictInsert (db : Db) (k : String) (v : Scroll) (k' : String) :
    dictLookup (dictInsert db k v) k'
      = if k' = k then some v else dictLookup db k' := by
  unfold dictInsert
  by_cases hany : db.any (fun p => p.1 = k) = true
  · simp only [hany, if_pos, dictLookup, find?_mapInsert db k v k' hany]
    by_cases hk : k' = k
    · simp [hk]
    · simp [hk]
  · simp only [hany, Bool.false_eq_true, if_false, dictLookup, List.find?_append]
    by_cases hk : k' = k
    · subst hk
      have hnone : db.find? (fun p => decide (p.1 = k')) = none := by
        refine List.find?_eq_none.mpr (fun p hp h => ?_)
        exact hany (List.any_eq_true.mpr ⟨p, hp, h⟩)
      simp [hnone, List.find?]
    · have hkk : ¬ (k = k') := fun h => hk h.symm
      have h2 : List.find? (fun p => decide (p.1 = k')) [(k, v)] = none := by
        simp [List.find?, hkk]
      simp [h2, hk]

theorem getLast?_cons_or {α : Type} (a : α) (l : List α) :
    (a :: l).getLast? = (l.getLast?).or (some a) := by
  induction l with
  | nil => rfl
  | cons b m _ =>
    rw [List.getLast?_cons_cons]
    have hb : (b :: m).getLast? = some (m.getLast?.getD b) := List.getLast?_cons
    rw [hb]
    rfl

/-- The insertion loop of `__load_scrolls` over well-formed records: it never
raises, and afterwards each lowercased name maps to the LAST record of the
fetched list bearing that name (later duplicates silently overwrite earlier
ones); keys untouched by the list keep their previous binding. -/
theorem buildInserts_lookup (js : List JsonObj) (db : Db) (k : String)
    (h : ∀ j ∈ js, validRecord j = true) :
    dictLookup (buildInserts db js).1 k
      = (lastMatch js k).or (dictLookup db k)
    ∧ (buildInserts db js).2 = false := by
  induction js generalizing db with
  | nil => simp [buildInserts, lastMatch]
  | cons j js ih =>
    have hj := h j (List.mem_cons_self j js)
    have hrest := fun x hx => h x (List.mem_cons_of_mem j hx)
    unfold validRecord at hj
    split at hj
    · exact absurd hj (by simp)
    · next sc hsc =>
      rcases Option.isSome_iff_exists.mp hj with ⟨kj, hkj⟩
      obtain ⟨ih1, ih2⟩ := ih (dictInsert db kj sc) hrest
      have hstep : buildInserts db (j :: js) = buildInserts (dictInsert db kj sc) js := by
        simp only [buildInserts, hsc, hkj]
      have hfm : (j :: js).filterMap mkScroll = sc :: js.filterMap mkScroll := by
        rw [List.filterMap_cons, hsc]
      by_cases hkk : kj = k
      · have hlm : lastMatch (j :: js) k = (lastMatch js k).or (some sc) := by
          unfold lastMatch
          rw [hfm, List.filter_cons, if_pos (by simp [hkj, hkk]), getLast?_cons_or]
        refine ⟨?_, hstep ▸ ih2⟩
        rw [hstep, ih1, dictLookup_dictInsert, if_pos hkk.symm, hlm, Option.or_assoc]
        rfl
      · have hlm : lastMatch (j :: js) k = lastMatch js k := by
          unfold lastMatch
          rw [hfm, List.filter_cons, if_neg (by simp [hkj, hkk])]
        refine ⟨?_, hstep ▸ ih2⟩
        rw [hstep, ih1, dictLookup_dictInsert, if_neg (fun hh => hkk hh.symm), hlm]

/-- The joint invariant of the interleaving model: the shared cache only
ever holds `none` or one of the callers' fully-built maps, and every
snapshot observed by a finished caller is one of those fully-built maps. -/
def SysInv {α : Type} (dbs : List α) (st : ConcSys α) : Prop :=
  (st.shared = none ∨ ∃ db ∈ dbs, st.shared = some db)
  ∧ ∀ ob : α, some ob ∈ st.obs → ob ∈ dbs

/-- Each atomic step preserves the invariant: the check keeps the cache
unchanged, a publish installs a full map, and an observation records either
the just-published map or the (by invariant, full) shared one. -/
theorem stepCaller_inv {α : Type} (dbs : List α) (st : ConcSys α) (i : Nat)
    (h : SysInv dbs st) : SysInv dbs (stepCaller dbs st i) := by
  obtain ⟨hsh, hob⟩ := h
  rcases hpc : st.pcs.get? i with _ | pc
  · simp only [stepCaller, hpc]
    exact ⟨hsh, hob⟩
  · cases pc with
    | start =>
      simp only [stepCaller, hpc]
      by_cases hs : st.shared.isNone = true
      · rw [if_pos hs]
        exact ⟨hsh, hob⟩
      · rw [if_neg hs]
        refine ⟨hsh, ?_⟩
        intro ob hmem
        rcases List.mem_or_eq_of_mem_set hmem with hmem2 | heq
        · exact hob ob hmem2
        · rcases hsh with hnone | ⟨db, hdb, hsh2⟩
          · exact absurd (by simp [hnone]) hs
          · rw [hsh2] at heq
            obtain rfl := Option.some.inj heq
            exact hdb
    | fetching =>
      simp only [stepCaller, hpc]
      rcases hdb : dbs.get? i with _ | db
      · exact ⟨hsh, hob⟩
      · refine ⟨Or.inr ⟨db, List.get?_mem hdb, rfl⟩, ?_⟩
        intro ob hmem
        rcases List.mem_or_eq_of_mem_set hmem with hmem2 | heq
        · exact hob ob hmem2
        · obtain rfl := Option.some.inj heq
          exact List.get?_mem hdb
    | done =>
      simp only [stepCaller, hpc]
      exact ⟨hsh, hob⟩

/-- The invariant holds after any schedule. -/
theorem sys_inv {α : Type} (dbs : List α) (sched : List Nat) (st : ConcSys α)
    (h : SysInv dbs st) : SysInv dbs (runSched dbs sched st) := by
  induction sched generalizing st with
  | nil => exact h
  | cons i rest ih => exact ih (stepCaller dbs st i) (stepCaller_inv dbs st i h)

theorem infix_intercalate_go (s nm acc : String) (l : List String)
    (h : nm.data <:+: acc.data ∨ nm ∈ l) :
    nm.data <:+: (String.intercalate.go acc s l).data := by
  induction l generalizing acc with
  | nil =>
    rcases h with h | h
    · exact h
    · cases h
  | cons a as ih =>
    apply ih
    rcases h with h | h
    · left
      obtain ⟨pre, post, hsp⟩ := h
      exact ⟨pre, post ++ s.data ++ a.data, by simp [← hsp]⟩
    · rcases List.mem_cons.mp h with rfl | h
      · exact Or.inl ⟨acc.data ++ s.data, [], by simp⟩
      · exact Or.inr h

/-- Every member of the list occurs in the `", ".join(...)` of the message. -/
theorem mem_infix_intercalate (s nm : String) (l : List String) (h : nm ∈ l) :
    nm.data <:+: (String.intercalate s l).data := by
  cases l with
  | nil => cases h
  | cons a as =>
    show nm.data <:+: (String.intercalate.go a s as).data
    rcases List.mem_cons.mp h with rfl | h
    · exact infix_intercalate_go s nm nm as (Or.inl (List.infix_refl _))
    · exact infix_intercalate_go s nm a as (Or.inr h)

/-! ### Sample catalogs and scorers for concrete instantiations

`prTie` mirrors realistic `fuzz.partial_ratio` outputs for the spec's tie
example (one candidate 0.01 below the other after rounding); `pr100` mirrors
the score of a query that is a substring of both names. -/

def dbTie : Db := [("foo", mkRec 1 "Foo"), ("fon", mkRec 2 "Fon")]

def prTie : String → String → ℚ := fun _ n => if n = "foo" then 96 else 9599/100

def dbFox : Db := [("fox", mkRec 1 "Fox"), ("fod", mkRec 2 "Fod")]

def pr100 : String → String → ℚ := fun _ _ => 100

/-! ### The claims -/

/-- C1: the claim says that with no exact match and an empty candidate set
(in particular an empty populated catalog) the resolver deterministically
raises `ScrollNotFound` and never errors from the max of an empty set.  The
code does the opposite: `max(name_scores.values())` on line 138 raises
`ValueError` before the (unreachable) `ScrollNotFound` branch on line 145. -/
theorem c1_empty_candidates_raise_value_error (db : Db)
    (pr : String → String → ℚ) (query : String) (threshold : ℚ)
    (hex : dictLookup db (strLower query) = none)
    (hemp : name_scores db pr (strLower query) threshold = []) :
    get_by_name db pr query threshold = .valueError
    ∧ get_by_name db pr query threshold ≠ .scrollNotFound := by
  have hve : get_by_name db pr query threshold = .valueError := by
    simp only [get_by_name, hex, hemp, maxOfValues]
  exact ⟨hve, by simp [hve]⟩

/-- Witness for C1: the populated-but-empty catalog of the spec's own
edge-case, at the default threshold. -/
theorem c1_empty_candidates_witness :
    get_by_name [] (fun _ _ => 0) "anything" = .valueError
    ∧ get_by_name [] (fun _ _ => 0) "anything" ≠ .scrollNotFound :=
  c1_empty_candidates_raise_value_error [] (fun _ _ => 0) "anything" (7/10)
    rfl rfl

/-- C2: the claim says the default 0.70 threshold is scaled to 70 on the
0-100 score scale, so candidates scoring below 70 are excluded.  The code
compares the raw `0.7` against the 0-100 score (line 135), so a candidate
scoring 50 — below 70 — passes the filter and is even returned as the
match. -/
theorem c2_threshold_used_unscaled :
    (50 : ℚ) < 70
    ∧ name_scores [("dragon", mkRec 1 "Dragon")] (fun _ _ => 50) "drxx" (7/10)
        = [("dragon", 50)]
    ∧ get_by_name [("dragon", mkRec 1 "Dragon")] (fun _ _ => 50) "drxx"
        = .found (mkRec 1 "Dragon") := by
  refine ⟨by norm_num, ?_, ?_⟩
  · norm_num [name_scores, dictKeys, round2, roundHalfEven, List.filterMap_cons]
  · norm_num [get_by_name, dictLookup, name_scores, dictKeys, maxOfValues,
      closest_items, dictGet, round2, roundHalfEven, strLower,
      List.filterMap_cons, List.find?]
    decide

/-- C3: among the threshold-passing candidates, line 138's maximum bounds
every kept (2-decimal-rounded) score and is attained; line 139 collects a
name exactly when its rounded score literally equals that maximum (no
epsilon beyond the rounding); and when exactly one name remains, its record
is returned. -/
theorem c3_tie_grouping (db : Db) (pr : String → String → ℚ) (query : String)
    (threshold m : ℚ)
    (hmax : maxOfValues (name_scores db pr (strLower query) threshold) = some m) :
    (∀ p ∈ name_scores db pr (strLower query) threshold, p.2 ≤ m)
    ∧ (∀ n : String,
        n ∈ closest_items (name_scores db pr (strLower query) threshold) m
          ↔ (n, m) ∈ name_scores db pr (strLower query) threshold)
    ∧ (∀ n : String, dictLookup db (strLower query) = none →
        closest_items (name_scores db pr (strLower query) threshold) m = [n] →
        get_by_name db pr query threshold = .found (dictGet db n)) := by
  refine ⟨(maxOfValues_spec _ m hmax).1, fun n => mem_closest_items _ m n, ?_⟩
  intro n hex hone
  simp only [get_by_name, hex, hmax, hone]

/-- Witness for C3 on the spec's tie example: "foo" scores 96, "fon" scores
95.99 — 0.01 lower after rounding — so only "foo" is grouped at the maximum
and its record is returned. -/
theorem c3_tie_grouping_witness :
    maxOfValues (name_scores dbTie prTie (strLower "fo") 70) = some 96
    ∧ closest_items (name_scores dbTie prTie (strLower "fo") 70) 96 = ["foo"]
    ∧ get_by_name dbTie prTie "fo" 70 = .found (mkRec 1 "Foo") := by
  have hns : name_scores dbTie prTie (strLower "fo") 70
      = [("foo", 96), ("fon", 9599/100)] := by
    simp [name_scores, dictKeys, dbTie, prTie, round2, roundHalfEven,
      List.filterMap_cons, strLower]
    norm_num
  have hmax : maxOfValues (name_scores dbTie prTie (strLower "fo") 70)
      = some 96 := by
    rw [hns]
    simp [maxOfValues, max_def]
    norm_num
  have hone : closest_items (name_scores dbTie prTie (strLower "fo") 70) 96
      = ["foo"] := by
    rw [hns]
    simp [closest_items, List.filterMap_cons]
    norm_num
  have hres := (c3_tie_grouping dbTie prTie "fo" 70 96 hmax).2.2 "foo"
    (by decide) hone
  exact ⟨hmax, hone, hres.trans (by decide)⟩

/-- C4: a query whose lowercased form is a cached key returns that record
immediately (lines 127-128), whatever the threshold and whatever the scorer —
fuzzy scoring is bypassed entirely. -/
theorem c4_exact_match_short_circuit (db : Db) (pr : String → String → ℚ)
    (query : String) (threshold : ℚ) (r : Scroll)
    (h : dictLookup db (strLower query) = some r) :
    get_by_name db pr query threshold = .found r := by
  simp only [get_by_name, h]

/-- Witness for C4: mixed-case query, threshold 100, a scorer that would
reject everything — the exact match still wins. -/
theorem c4_exact_match_witness :
    get_by_name [("fireball", mkRec 3 "FireBall")] (fun _ _ => 0) "FireBall" 100
      = .found (mkRec 3 "FireBall") :=
  c4_exact_match_short_circuit [("fireball", mkRec 3 "FireBall")] (fun _ _ => 0)
    "FireBall" 100 (mkRec 3 "FireBall") (by decide)

/-- C5: a fetch or parse failure raises before line 115 assigns
`cls._scrolls_db`, so the cache state — in particular the uninitialized
`None` — is unchanged, and the next `get_by_name` call re-attempts the
fetch through the lazy-initialization check. -/
theorem c5_fetch_failure_leaves_cache_uninitialized (st : Option Db)
    (fp : Option (List JsonObj)) :
    load_scrolls none st = (st, true)
    ∧ lazy_init fp (load_scrolls none none).1 = load_scrolls fp none :=
  ⟨rfl, rfl⟩

/-- Counterexample for C6: two callers scheduled check-check-publish-publish
both issue a fetch — the code has no lock, so "at most one in-flight fetch"
is violated. -/
theorem c6_two_fetches_counterexample :
    (runSched [1, 2] [0, 1, 0, 1] (initSys [1, 2])).fetches = 2
    ∧ ¬ (runSched [1, 2] [0, 1, 0, 1] (initSys [1, 2])).fetches ≤ 1 := by
  decide

/-- C6 (amended): under any schedule the shared cache is only ever the
uninitialized `None` or one caller's fully-built map — callers may race and
each issue a fetch (last writer wins), but no torn cache is observable —
and every snapshot a finished caller resolves against is one of the
fully-built maps, so each call returns the resolver's (correct) result for
a fully-populated cache: lines 127-145 run synchronously on that snapshot,
and `get_by_name` is a pure function of it. -/
theorem c6_no_torn_cache {α : Type} (dbs : List α) (sched : List Nat) :
    ((runSched dbs sched (initSys dbs)).shared = none
      ∨ ∃ db ∈ dbs, (runSched dbs sched (initSys dbs)).shared = some db)
    ∧ ∀ ob : α, some ob ∈ (runSched dbs sched (initSys dbs)).obs → ob ∈ dbs :=
  sys_inv dbs sched (initSys dbs)
    ⟨Or.inl rfl, fun ob hmem => by
      rcases List.mem_map.mp hmem with ⟨x, _, heq⟩
      cases heq⟩

/-- Witness for C6 (amended): in the two-fetch schedule both callers finish;
caller 0 observed its own fully-built map, which is one of the two builds. -/
theorem c6_no_torn_cache_witness :
    some 1 ∈ (runSched [1, 2] [0, 1, 0, 1] (initSys [1, 2])).obs
    ∧ (1 : Nat) ∈ [1, 2] :=
  ⟨by decide, (c6_no_torn_cache [1, 2] [0, 1, 0, 1]).2 1 (by decide)⟩

/-- Counterexample for C7: `MultipleScrollsFound` is raised with the query
already lowercased on line 123, not the original query string "FO" as
passed by the caller. -/
theorem c7_lowercased_query_counterexample :
    get_by_name dbFox pr100 "FO"
      = .multipleScrollsFound [.s "Fox", .s "Fod"] "fo"
    ∧ ("fo" : String) ≠ "FO" := by
  constructor
  · norm_num [get_by_name, dictLookup, name_scores, dictKeys, maxOfValues,
      closest_items, dictGet, round2, roundHalfEven, strLower, dbFox, pr100,
      List.filterMap_cons, List.find?]
    decide
  · decide

/-- C7 (amended): the Ambiguous failure carries the tied candidates' display
names and the LOWERCASED form of the query (not the original as passed). -/
theorem c7_ambiguous_payload (db : Db) (pr : String → String → ℚ)
    (query : String) (threshold : ℚ) (names : List JVal) (term : String)
    (h : get_by_name db pr query threshold = .multipleScrollsFound names term) :
    term = strLower query
    ∧ ∃ m, maxOfValues (name_scores db pr (strLower query) threshold) = some m
        ∧ names
            = (closest_items (name_scores db pr (strLower query) threshold) m).map
                (fun n => (dictGet db n).name)
        ∧ 2 ≤ (closest_items (name_scores db pr (strLower query) threshold) m).length := by
  simp only [get_by_name] at h
  rcases hdl : dictLookup db (strLower query) with _ | r
  · simp only [hdl] at h
    rcases hmax : maxOfValues (name_scores db pr (strLower query) threshold)
      with _ | m
    · simp only [hmax] at h
      exact absurd h (by simp)
    · simp only [hmax] at h
      rcases hcl : closest_items (name_scores db pr (strLower query) threshold) m
        with _ | ⟨n1, ns1⟩
      · simp only [hcl] at h
        exact absurd h (by simp)
      · rcases ns1 with _ | ⟨n2, rest⟩
        · simp only [hcl] at h
          exact absurd h (by simp)
        · simp only [hcl] at h
          rw [LookupResult.multipleScrollsFound.injEq] at h
          obtain ⟨h1, h2⟩ := h
          refine ⟨h2.symm, m, rfl, ?_, ?_⟩
          · rw [hcl]
            exact h1.symm
          · rw [hcl]
            simp
  · simp only [hdl] at h
    exact absurd h (by simp)

/-- Witness for C7 (amended) at the two-way tie. -/
theorem c7_ambiguous_payload_witness :
    ("fo" : String) = strLower "FO"
    ∧ ∃ m, maxOfValues (name_scores dbFox pr100 (strLower "FO") (7/10)) = some m
        ∧ [JVal.s "Fox", JVal.s "Fod"]
            = (closest_items (name_scores dbFox pr100 (strLower "FO") (7/10)) m).map
                (fun n => (dictGet dbFox n).name)
        ∧ 2 ≤ (closest_items (name_scores dbFox pr100 (strLower "FO") (7/10)) m).length :=
  c7_ambiguous_payload dbFox pr100 "FO" (7/10) [JVal.s "Fox", JVal.s "Fod"] "fo"
    (by
      norm_num [get_by_name, dictLookup, name_scores, dictKeys, maxOfValues,
        closest_items, dictGet, round2, roundHalfEven, strLower, dbFox, pr100,
        List.filterMap_cons, List.find?]
      decide)

/-- C8: with five or fewer tied names the message enumerates them all (each
name occurs in the message text); with more than five the message is the
fixed "too many" text, independent of the names themselves. -/
theorem c8_message_behavior (scrolls : List JVal) (t : String) :
    (scrolls.length ≤ 5 → ∀ nm : String, JVal.s nm ∈ scrolls →
        nm.data <:+: (msfToString scrolls t).data)
    ∧ (5 < scrolls.length →
        msfToString scrolls t
          = "Too many scrolls matches your query \x27" ++ t ++ "\x27") := by
  constructor
  · intro hlen nm hmem
    have hnotgt : ¬ (scrolls.length > 5) := by omega
    simp only [msfToString]
    rw [if_neg hnotgt]
    have hmem2 : nm ∈ scrolls.map
        (fun v => match v with | .s nm => nm | v => reprStr v) :=
      List.mem_map.mpr ⟨.s nm, hmem, rfl⟩
    obtain ⟨pre, post, hsp⟩ := mem_infix_intercalate ", " nm _ hmem2
    refine ⟨("Multiple scrolls match \x27" ++ t ++ "\x27z: ").data ++ pre, post, ?_⟩
    simp only [String.data_append, ← hsp, List.append_assoc]
  · intro hlen
    simp only [msfToString]
    rw [if_pos hlen]

/-- Witness for C8: a two-name tie enumerates both names; here "Fox" occurs
in the message. -/
theorem c8_message_behavior_witness :
    ("Fox" : String).data <:+: (msfToString [.s "Fox", .s "Fod"] "fo").data :=
  (c8_message_behavior [.s "Fox", .s "Fod"] "fo").1 (by decide) "Fox" (by decide)

/-- Counterexample for C9: a record with only `id` and `name` is NOT accepted
— `Scroll.__init__` raises `KeyError` on `description`, so nothing is
inserted and the load aborts. -/
theorem c9_min_record_rejected :
    mkScroll [("id", .i 1), ("name", .s "Foo")] = none
    ∧ load_scrolls (some [[("id", .i 1), ("name", .s "Foo")]]) none
        = (some [], true) := by
  decide

/-- C9 (amended): a record is accepted and inserted exactly when all fifteen
mandatory fields are present with a string name: (1) if they are present and
the name is a string, the record is built and inserted under the lowercased
name with the two optional fields defaulting; (2) if any mandatory field is
missing, `Scroll.__init__` raises `KeyError` — nothing is built, nothing is
inserted and the load aborts; (3) if the record builds but its name is not a
string, `.lower()` raises `AttributeError` — nothing is inserted and the
load aborts; (4) fields outside the seventeen touched ones are ignored: the
constructed record depends only on those seventeen lookups. -/
theorem c9_mandatory_fields (j : JsonObj) :
    (∀ nm : String, jget j "name" = some (.s nm) →
      (∀ f ∈ mandatoryFields, (jget j f).isSome = true) →
      ∃ sc, mkScroll j = some sc ∧ sc.name = .s nm
        ∧ buildInserts [] [j] = ([(strLower nm, sc)], false))
    ∧ (∀ f ∈ mandatoryFields, jget j f = none →
        mkScroll j = none
        ∧ ∀ (db : Db) (js : List JsonObj), buildInserts db (j :: js) = (db, true))
    ∧ (∀ sc : Scroll, mkScroll j = some sc → (∀ nm : String, sc.name ≠ .s nm) →
        ∀ (db : Db) (js : List JsonObj), buildInserts db (j :: js) = (db, true))
    ∧ ∀ j' : JsonObj, (∀ f ∈ relevantFields, jget j' f = jget j f) →
        mkScroll j' = mkScroll j := by
  refine ⟨?_, ?_, ?_, ?_⟩
  · intro nm hname hman
    obtain ⟨v1, h1⟩ := Option.isSome_iff_exists.mp
      (hman "id" (by simp [mandatoryFields]))
    obtain ⟨v3, h3⟩ := Option.isSome_iff_exists.mp
      (hman "description" (by simp [mandatoryFields]))
    obtain ⟨v4, h4⟩ := Option.isSome_iff_exists.mp
      (hman "kind" (by simp [mandatoryFields]))
    obtain ⟨v5, h5⟩ := Option.isSome_iff_exists.mp
      (hman "types" (by simp [mandatoryFields]))
    obtain ⟨v6, h6⟩ := Option.isSome_iff_exists.mp
      (hman "costgrowth" (by simp [mandatoryFields]))
    obtain ⟨v7, h7⟩ := Option.isSome_iff_exists.mp
      (hman "costorder" (by simp [mandatoryFields]))
    obtain ⟨v8, h8⟩ := Option.isSome_iff_exists.mp
      (hman "costenergy" (by simp [mandatoryFields]))
    obtain ⟨v9, h9⟩ := Option.isSome_iff_exists.mp
      (hman "costdecay" (by simp [mandatoryFields]))
    obtain ⟨v10, h10⟩ := Option.isSome_iff_exists.mp
      (hman "ap" (by simp [mandatoryFields]))
    obtain ⟨v11, h11⟩ := Option.isSome_iff_exists.mp
      (hman "ac" (by simp [mandatoryFields]))
    obtain ⟨v12, h12⟩ := Option.isSome_iff_exists.mp
      (hman "hp" (by simp [mandatoryFields]))
    obtain ⟨v13, h13⟩ := Option.isSome_iff_exists.mp
      (hman "flavor" (by simp [mandatoryFields]))
    obtain ⟨v14, h14⟩ := Option.isSome_iff_exists.mp
      (hman "rarity" (by simp [mandatoryFields]))
    obtain ⟨v15, h15⟩ := Option.isSome_iff_exists.mp
      (hman "set" (by simp [mandatoryFields]))
    have hmk : mkScroll j = some ⟨v1, .s nm, v3, v4, v5, v6, v7, v8, v9, v10,
        v11, v12, v13, v14, v15, (jget j "passiverules").getD .arr0,
        (jget j "abilities").getD .arr0⟩ := by
      simp [mkScroll, h1, hname, h3, h4, h5, h6, h7, h8, h9, h10, h11, h12,
        h13, h14, h15]
    refine ⟨_, hmk, rfl, ?_⟩
    simp [buildInserts, hmk, lowerKey, Scroll.name, dictInsert]
  · intro f hf hnone
    have hmk : mkScroll j = none := by
      simp only [mandatoryFields, List.mem_cons, List.not_mem_nil, or_false] at hf
      rcases hf with rfl | rfl | rfl | rfl | rfl | rfl | rfl | rfl | rfl | rfl
        | rfl | rfl | rfl | rfl | rfl <;>
        simp only [mkScroll, hnone, none_bind_eq, bind_fun_none]
    exact ⟨hmk, fun db js => by simp [buildInserts, hmk]⟩
  · intro sc hsc hnotstr db js
    have hlk : lowerKey sc.name = none := by
      cases hv : sc.name with
      | s v => exact absurd hv (hnotstr v)
      | i v => rfl
      | null => rfl
      | arr0 => rfl
    simp [buildInserts, hsc, hlk]
  · intro j' hj'
    simp only [mkScroll,
      hj' "id" (by simp [relevantFields, mandatoryFields]),
      hj' "name" (by simp [relevantFields, mandatoryFields]),
      hj' "description" (by simp [relevantFields, mandatoryFields]),
      hj' "kind" (by simp [relevantFields, mandatoryFields]),
      hj' "types" (by simp [relevantFields, mandatoryFields]),
      hj' "costgrowth" (by simp [relevantFields, mandatoryFields]),
      hj' "costorder" (by simp [relevantFields, mandatoryFields]),
      hj' "costenergy" (by simp [relevantFields, mandatoryFields]),
      hj' "costdecay" (by simp [relevantFields, mandatoryFields]),
      hj' "ap" (by simp [relevantFields, mandatoryFields]),
      hj' "ac" (by simp [relevantFields, mandatoryFields]),
      hj' "hp" (by simp [relevantFields, mandatoryFields]),
      hj' "flavor" (by simp [relevantFields, mandatoryFields]),
      hj' "rarity" (by simp [relevantFields, mandatoryFields]),
      hj' "set" (by simp [relevantFields, mandatoryFields]),
      hj' "passiverules" (by simp [relevantFields, mandatoryFields]),
      hj' "abilities" (by simp [relevantFields, mandatoryFields])]

/-- Witness for C9 (amended): a record with all mandatory fields plus an
unknown extra field loads fine, keyed by the lowercased name; a record
missing only `flavor` is rejected and aborts the load; a record whose name
is the integer 5 is rejected at `.lower()` and aborts the load. -/
theorem c9_mandatory_fields_witness :
    (∃ sc, mkScroll (jrec 7 "Foo" ++ [("bonus", JVal.i 3)]) = some sc
      ∧ sc.name = .s "Foo"
      ∧ buildInserts [] [jrec 7 "Foo" ++ [("bonus", JVal.i 3)]]
          = ([(strLower "Foo", sc)], false))
    ∧ (mkScroll jrecNoFlavor = none
      ∧ ∀ (db : Db) (js : List JsonObj),
          buildInserts db (jrecNoFlavor :: js) = (db, true))
    ∧ ∀ (db : Db) (js : List JsonObj),
        buildInserts db (jrecIntName :: js) = (db, true) :=
  ⟨(c9_mandatory_fields (jrec 7 "Foo" ++ [("bonus", JVal.i 3)])).1 "Foo"
      (by decide) (by decide),
   (c9_mandatory_fields jrecNoFlavor).2.1 "flavor" (by decide) (by decide),
   (c9_mandatory_fields jrecIntName).2.2.1 scIntName (by decide)
     (fun nm h => JVal.noConfusion h)⟩

/-- C10: cache population keys each accepted record by its lowercased name;
on duplicate keys the record occurring last in the fetched order silently
wins, nothing is rejected and no error is raised. -/
theorem c10_last_write_wins (js : List JsonObj) (k : String)
    (h : ∀ j ∈ js, validRecord j = true) :
    dictLookup (buildInserts [] js).1 k = lastMatch js k
    ∧ (buildInserts [] js).2 = false := by
  obtain ⟨h1, h2⟩ := buildInserts_lookup js [] k h
  refine ⟨?_, h2⟩
  rw [h1]
  exact Option.or_none

/-- Witness for C10: two records with lowercase-equal names "Foo" / "FOO";
the later record (id 2) wins the key "foo". -/
theorem c10_last_write_wins_witness :
    dictLookup (buildInserts [] [jrec 1 "Foo", jrec 2 "FOO"]).1 "foo"
      = lastMatch [jrec 1 "Foo", jrec 2 "FOO"] "foo"
    ∧ lastMatch [jrec 1 "Foo", jrec 2 "FOO"] "foo" = some (mkRec 2 "FOO") :=
  ⟨(c10_last_write_wins [jrec 1 "Foo", jrec 2 "FOO"] "foo" (by decide)).1,
   by decide⟩

end Scrollsguide
